import Mathlib

/-
Verification development for the StuddyBuddy AI app.

The core logic embedded here is the spaced-repetition topic-mastery
updater of src/components/QuizOverlay.tsx (handleSubmit) together with
the quiz-history clearing of the history modal (clearHistory) and the
localStorage load defaults.

Modelling choices, all taken from the source:
- The JS object holding the mastery map (parsed from
  studyBuddy_topic_mastery) is an insertion-ordered association list
  from topic name to an integer counter; property write obj[t] = v
  updates the entry in place when the key exists and appends otherwise.
- The JS Set holding the weak topics is an insertion-ordered duplicate
  free string list; Set.add appends when absent, Set.delete removes.
- localStorage is a record of three optional values; getItem returning
  null corresponds to the Option being none, and the source defaults a
  missing value to the empty structure (getItem(k) || fallback).
- Record<number, number> (the selected answers) is an association list
  from question id to option index; answers[q.id] === q.correctAnswerIndex
  is false when the id is absent.
-/

namespace StuddyBuddy

/-- A per-question outcome: the topic of the question and whether it was
answered correctly (QuizOverlay.tsx, handleSubmit loop body). -/
structure Outcome where
  topic : String
  isCorrect : Bool
deriving DecidableEq, Repr

/-- Association-list lookup, the model of JS property read obj[k]
(first entry with the key wins; keys are unique in a JS object). -/
def lookupKey {α β : Type} [DecidableEq α] : List (α × β) → α → Option β
  | [], _ => none
  | (k, v) :: m, t => if k = t then some v else lookupKey m t

/-- Association-list write, the model of JS property write obj[k] = v:
update in place when the key exists, append otherwise. -/
def setKey : List (String × Int) → String → Int → List (String × Int)
  | [], t, v => [(t, v)]
  | (k, x) :: m, t, v => if k = t then (t, v) :: m else (k, x) :: setKey m t v

/-- The mastery read (currentMastery[q.topic] || 0) of handleSubmit:
the stored counter, taking 0 when the topic is absent. -/
def masteryGet (m : List (String × Int)) (t : String) : Int :=
  (lookupKey m t).getD 0

/-- weakTopicsSet.add(q.topic): append when not already present. -/
def addWeak (w : List String) (t : String) : List String :=
  if t ∈ w then w else w ++ [t]

/-- if (weakTopicsSet.has(q.topic)) weakTopicsSet.delete(q.topic). -/
def removeWeak (w : List String) (t : String) : List String :=
  if t ∈ w then w.filter (fun x => x ≠ t) else w

/-- One iteration of the forEach loop of handleSubmit
(QuizOverlay.tsx lines 101-117), acting on the pair
(mastery map, weak-topic set). -/
def applyOutcome (st : List (String × Int) × List String) (o : Outcome) :
    List (String × Int) × List String :=
  if o.isCorrect then
    (setKey st.1 o.topic (masteryGet st.1 o.topic + 1), removeWeak st.2 o.topic)
  else
    (setKey st.1 o.topic (max 0 (masteryGet st.1 o.topic - 1)), addWeak st.2 o.topic)

/-- The whole forEach loop of handleSubmit: fold the outcomes, in
sequence order, over the initial mastery map and weak-topic set. -/
def processOutcomes (m : List (String × Int)) (w : List String)
    (os : List Outcome) : List (String × Int) × List String :=
  os.foldl applyOutcome (m, w)

/-- A quiz question (types.ts QuizQuestion). -/
structure QuizQuestion where
  id : Nat
  question : String
  options : List String
  correctAnswerIndex : Nat
  explanation : String
  topic : String
deriving DecidableEq, Repr

/-- A generated quiz (types.ts QuizData). -/
structure QuizData where
  title : String
  questions : List QuizQuestion
deriving DecidableEq, Repr

/-- The correctness test of handleSubmit:
answers[q.id] === q.correctAnswerIndex, false when q.id is unanswered. -/
def answerOutcome (answers : List (Nat × Nat)) (q : QuizQuestion) : Outcome :=
  ⟨q.topic, decide (lookupKey answers q.id = some q.correctAnswerIndex)⟩

/-- correctCount of handleSubmit: the number of questions whose selected
answer equals the correct index. -/
def correctCount (answers : List (Nat × Nat)) (qs : List QuizQuestion) : Nat :=
  (qs.filter (fun q => (answerOutcome answers q).isCorrect)).length

/-- A stored quiz result (types.ts QuizResult). -/
structure QuizResult where
  id : String
  title : String
  score : Nat
  totalQuestions : Nat
  date : Int
  topic : String
deriving DecidableEq, Repr

/-- The topicDisplay computation of handleSubmit: the focus topic when
non-empty, else the selected subject unless it is General / Any,
else the literal General. -/
def topicDisplayOf (focusTopic selectedSubject : String) : String :=
  let t := if focusTopic = "" ∧ selectedSubject ≠ "General / Any"
    then selectedSubject else focusTopic
  if t = "" then "General" else t

/-- The three localStorage values the updater touches; none models a
missing key (getItem returning null). -/
structure Storage where
  topicMastery : Option (List (String × Int))
  weakTopics : Option (List String)
  quizHistory : Option (List QuizResult)
deriving DecidableEq, Repr

/-- JSON.parse(localStorage.getItem(studyBuddy_topic_mastery) ||.. ):
empty map when the key is absent. -/
def loadMastery (s : Storage) : List (String × Int) :=
  s.topicMastery.getD []

/-- new Set(JSON.parse(localStorage.getItem(studyBuddy_weakTopics) ||.. )):
empty set when the key is absent. -/
def loadWeakTopics (s : Storage) : List String :=
  s.weakTopics.getD []

/-- JSON.parse(localStorage.getItem(studyBuddy_quizHistory) ||.. ):
empty list when the key is absent. -/
def loadHistory (s : Storage) : List QuizResult :=
  s.quizHistory.getD []

/-- The QuizResult record handleSubmit constructs before appending it to
the history list. -/
def mkQuizResult (qd : QuizData) (answers : List (Nat × Nat))
    (resultId : String) (now : Int) (focusTopic selectedSubject : String) :
    QuizResult :=
  ⟨resultId, qd.title, correctCount answers qd.questions,
    qd.questions.length, now, topicDisplayOf focusTopic selectedSubject⟩

/-- The storage effect of handleSubmit (QuizOverlay.tsx lines 95-144):
load the three values (defaulting missing ones to empty), fold the per
question outcomes over mastery map and weak-topic set, append the new
result record to the history, and write all three back; also returns
the score. -/
def handleSubmit (s : Storage) (qd : QuizData) (answers : List (Nat × Nat))
    (resultId : String) (now : Int) (focusTopic selectedSubject : String) :
    Storage × Nat :=
  let st := processOutcomes (loadMastery s) (loadWeakTopics s)
    (qd.questions.map (answerOutcome answers))
  ({ topicMastery := some st.1
     weakTopics := some st.2
     quizHistory := some (loadHistory s ++
       [mkQuizResult qd answers resultId now focusTopic selectedSubject]) },
   correctCount answers qd.questions)

/-- clearHistory of the quiz-history modal (confirmed branch):
localStorage.removeItem(studyBuddy_quizHistory), leaving the other two
keys untouched. -/
def clearHistory (s : Storage) : Storage :=
  { s with quizHistory := none }

/-- The correctness flag of the last outcome for a given topic in the
batch, none when the topic occurs in no outcome. -/
def lastOutcome : List Outcome → String → Option Bool
  | [], _ => none
  | o :: os, t =>
    match lastOutcome os t with
    | some b => some b
    | none => if o.topic = t then some o.isCorrect else none

/-! Helper lemmas about the association-list and set operations. -/

theorem lookupKey_setKey_self (m : List (String × Int)) (t : String) (v : Int) :
    lookupKey (setKey m t v) t = some v := by
  induction m with
  | nil => simp [setKey, lookupKey]
  | cons p m ih =>
    obtain ⟨k, x⟩ := p
    by_cases hk : k = t
    · simp [setKey, hk, lookupKey]
    · simp [setKey, hk, lookupKey, ih]

theorem lookupKey_setKey_ne (m : List (String × Int)) (t u : String) (v : Int)
    (h : u ≠ t) : lookupKey (setKey m t v) u = lookupKey m u := by
  induction m with
  | nil => simp [setKey, lookupKey, Ne.symm h]
  | cons p m ih =>
    obtain ⟨k, x⟩ := p
    by_cases hk : k = t
    · subst hk
      simp [setKey, lookupKey, Ne.symm h]
    · simp [setKey, hk, lookupKey, ih]

theorem mem_setKey (m : List (String × Int)) (t : String) (v : Int)
    (p : String × Int) (h : p ∈ setKey m t v) : p = (t, v) ∨ p ∈ m := by
  induction m with
  | nil => simpa [setKey] using h
  | cons q m ih =>
    obtain ⟨k, x⟩ := q
    by_cases hk : k = t
    · simp [setKey, hk] at h
      rcases h with h | h
      · exact Or.inl (by simp [h])
      · exact Or.inr (List.mem_cons_of_mem _ h)
    · simp [setKey, hk] at h
      rcases h with h | h
      · exact Or.inr (by simp [h])
      · rcases ih h with h1 | h1
        · exact Or.inl h1
        · exact Or.inr (List.mem_cons_of_mem _ h1)

theorem mem_of_lookupKey {α β : Type} [DecidableEq α] (m : List (α × β))
    (a : α) (b : β) (h : lookupKey m a = some b) : (a, b) ∈ m := by
  induction m with
  | nil => simp [lookupKey] at h
  | cons p m ih =>
    obtain ⟨k, x⟩ := p
    by_cases hk : k = a
    · subst hk
      simp [lookupKey] at h
      simp [h]
    · simp [lookupKey, hk] at h
      exact List.mem_cons_of_mem _ (ih h)

theorem masteryGet_nonneg (m : List (String × Int))
    (h : ∀ p ∈ m, 0 ≤ p.2) (t : String) : 0 ≤ masteryGet m t := by
  unfold masteryGet
  cases hl : lookupKey m t with
  | none => simp
  | some v => simpa using h (t, v) (mem_of_lookupKey m t v hl)

theorem mem_addWeak (w : List String) (t u : String) :
    u ∈ addWeak w t ↔ u ∈ w ∨ u = t := by
  unfold addWeak
  by_cases h : t ∈ w
  · simp only [h, if_true]
    constructor
    · exact Or.inl
    · rintro (h1 | rfl)
      · exact h1
      · exact h
  · simp [h]

theorem not_mem_removeWeak (w : List String) (t : String) :
    t ∉ removeWeak w t := by
  unfold removeWeak
  by_cases h : t ∈ w <;> simp [h, List.mem_filter]

theorem mem_removeWeak_ne (w : List String) (t u : String) (h : u ≠ t) :
    u ∈ removeWeak w t ↔ u ∈ w := by
  unfold removeWeak
  by_cases hm : t ∈ w <;> simp [hm, List.mem_filter, h]

/-! Helper lemmas about one loop iteration and the whole fold. -/

theorem processOutcomes_cons (m : List (String × Int)) (w : List String)
    (o : Outcome) (os : List Outcome) :
    processOutcomes m w (o :: os) =
      processOutcomes (applyOutcome (m, w) o).1 (applyOutcome (m, w) o).2 os :=
  rfl

theorem applyOutcome_mastery_self (m : List (String × Int)) (w : List String)
    (o : Outcome) :
    masteryGet (applyOutcome (m, w) o).1 o.topic =
      if o.isCorrect then masteryGet m o.topic + 1
      else max 0 (masteryGet m o.topic - 1) := by
  unfold applyOutcome masteryGet
  by_cases hc : o.isCorrect <;> simp [hc, lookupKey_setKey_self, masteryGet]

theorem applyOutcome_weak_self (m : List (String × Int)) (w : List String)
    (o : Outcome) :
    o.topic ∈ (applyOutcome (m, w) o).2 ↔ o.isCorrect = false := by
  unfold applyOutcome
  by_cases hc : o.isCorrect <;>
    simp [hc, not_mem_removeWeak, mem_addWeak]

theorem applyOutcome_frame (m : List (String × Int)) (w : List String)
    (o : Outcome) (t : String) (h : o.topic ≠ t) :
    lookupKey (applyOutcome (m, w) o).1 t = lookupKey m t ∧
      (t ∈ (applyOutcome (m, w) o).2 ↔ t ∈ w) := by
  unfold applyOutcome
  by_cases hc : o.isCorrect <;>
    simp [hc, lookupKey_setKey_ne m o.topic t _ (Ne.symm h),
      mem_removeWeak_ne w o.topic t (Ne.symm h), mem_addWeak, Ne.symm h]

theorem applyOutcome_nonneg (m : List (String × Int)) (w : List String)
    (o : Outcome) (h : ∀ p ∈ m, 0 ≤ p.2) :
    ∀ p ∈ (applyOutcome (m, w) o).1, 0 ≤ p.2 := by
  intro p hp
  unfold applyOutcome at hp
  by_cases hc : o.isCorrect <;> simp [hc] at hp
  · rcases mem_setKey m o.topic _ p hp with h1 | h1
    · have := masteryGet_nonneg m h o.topic
      simp [h1]
      omega
    · exact h p h1
  · rcases mem_setKey m o.topic _ p hp with h1 | h1
    · simp [h1]
    · exact h p h1

theorem processOutcomes_nonneg (os : List Outcome) :
    ∀ m w, (∀ p ∈ m, 0 ≤ p.2) →
      ∀ p ∈ (processOutcomes m w os).1, 0 ≤ p.2 := by
  induction os with
  | nil =>
    intro m w h
    simpa [processOutcomes] using h
  | cons o os ih =>
    intro m w h
    rw [processOutcomes_cons]
    exact ih _ _ (applyOutcome_nonneg m w o h)

theorem processOutcomes_frame (os : List Outcome) :
    ∀ m w (t : String), (∀ o ∈ os, o.topic ≠ t) →
      lookupKey (processOutcomes m w os).1 t = lookupKey m t ∧
        (t ∈ (processOutcomes m w os).2 ↔ t ∈ w) := by
  induction os with
  | nil =>
    intro m w t _
    exact ⟨rfl, Iff.rfl⟩
  | cons o os ih =>
    intro m w t h
    have ho := h o (List.mem_cons_self o os)
    have hstep := applyOutcome_frame m w o t ho
    have hih := ih (applyOutcome (m, w) o).1 (applyOutcome (m, w) o).2 t
      (fun o1 ho1 => h o1 (List.mem_cons_of_mem o ho1))
    rw [processOutcomes_cons]
    exact ⟨hih.1.trans hstep.1, hih.2.trans hstep.2⟩

theorem lastOutcome_none (os : List Outcome) (t : String)
    (h : lastOutcome os t = none) : ∀ o ∈ os, o.topic ≠ t := by
  induction os with
  | nil => simp
  | cons o os ih =>
    intro o1 ho1
    unfold lastOutcome at h
    cases hl : lastOutcome os t with
    | some b => rw [hl] at h; simp at h
    | none =>
      rw [hl] at h
      by_cases ht : o.topic = t
      · simp [ht] at h
      · rcases List.mem_cons.mp ho1 with rfl | hmem
        · exact ht
        · exact ih hl o1 hmem

theorem lastOutcome_isSome (os : List Outcome) (t : String) :
    (∃ o ∈ os, o.topic = t) ↔ (lastOutcome os t).isSome := by
  induction os with
  | nil => simp [lastOutcome]
  | cons o os ih =>
    unfold lastOutcome
    cases hl : lastOutcome os t with
    | some b =>
      simp only [Option.isSome_some]
      constructor
      · intro _; trivial
      · intro _
        obtain ⟨o1, ho1, ht⟩ := (ih.mpr (by simp [hl]))
        exact ⟨o1, List.mem_cons_of_mem o ho1, ht⟩
    | none =>
      have hnone : ¬ ∃ o1 ∈ os, o1.topic = t := by
        intro hx
        have := ih.mp hx
        rw [hl] at this
        simp at this
      by_cases ht : o.topic = t
      · simp [ht]
      · simp only [ht, if_false, Option.isSome_none]
        constructor
        · rintro ⟨o1, ho1, h1⟩
          rcases List.mem_cons.mp ho1 with rfl | hmem
          · exact absurd h1 ht
          · exact absurd ⟨o1, hmem, h1⟩ hnone
        · intro h1
          exact absurd h1 (by simp)

theorem processOutcomes_last (os : List Outcome) :
    ∀ m w (t : String) (b : Bool), lastOutcome os t = some b →
      (t ∈ (processOutcomes m w os).2 ↔ b = false) := by
  induction os with
  | nil =>
    intro m w t b h
    simp [lastOutcome] at h
  | cons o os ih =>
    intro m w t b h
    rw [processOutcomes_cons]
    cases hl : lastOutcome os t with
    | some b1 =>
      have hb : b1 = b := by
        unfold lastOutcome at h
        rw [hl] at h
        exact Option.some.inj h
      subst hb
      exact ih _ _ t b1 hl
    | none =>
      have hterm : o.topic = t ∧ o.isCorrect = b := by
        unfold lastOutcome at h
        rw [hl] at h
        by_cases ht : o.topic = t
        · simp [ht] at h
          exact ⟨ht, h⟩
        · simp [ht] at h
      have hframe := (processOutcomes_frame os (applyOutcome (m, w) o).1
        (applyOutcome (m, w) o).2 t (lastOutcome_none os t hl)).2
      rw [hframe, ← hterm.1, applyOutcome_weak_self, hterm.2]

/-! Claim theorems. -/

/-- C1: the mastery update processes the outcomes in sequence order, and
for each outcome: if correct, the mastery counter of its topic becomes
the old counter plus 1 (taking 0 when absent) and the topic is no longer
in the weak-topic set; if incorrect, the counter becomes
max 0 (old counter minus 1) and the topic is in the weak-topic set. -/
theorem C1_mastery_update_rules (m : List (String × Int)) (w : List String)
    (o : Outcome) (os : List Outcome) :
    processOutcomes m w (o :: os) =
      processOutcomes (applyOutcome (m, w) o).1 (applyOutcome (m, w) o).2 os ∧
      masteryGet (applyOutcome (m, w) o).1 o.topic =
        (if o.isCorrect then masteryGet m o.topic + 1
          else max 0 (masteryGet m o.topic - 1)) ∧
      (o.topic ∈ (applyOutcome (m, w) o).2 ↔ o.isCorrect = false) :=
  ⟨processOutcomes_cons m w o os, applyOutcome_mastery_self m w o,
    applyOutcome_weak_self m w o⟩

/-- C2: starting from a mastery map whose counters are all non-negative,
every counter in the mastery map produced by the update is at least 0,
for every weak-topic set and every outcome sequence. -/
theorem C2_mastery_nonneg (m : List (String × Int)) (w : List String)
    (os : List Outcome) (h : ∀ p ∈ m, 0 ≤ p.2) :
    ∀ p ∈ (processOutcomes m w os).1, 0 ≤ p.2 :=
  processOutcomes_nonneg os m w h

/-- Witness for C2 at a concrete non-negative map and one incorrect
outcome. -/
theorem C2_mastery_nonneg_witness :
    (∀ p ∈ [(("A" : String), (2 : Int))], 0 ≤ p.2) ∧
      ∀ p ∈ (processOutcomes [("A", 2)] [] [Outcome.mk "A" false]).1, 0 ≤ p.2 :=
  ⟨by decide, C2_mastery_nonneg [("A", 2)] [] [Outcome.mk "A" false] (by decide)⟩

/-- C3: a topic that appears in at least one outcome of the batch is in
the final weak-topic set if and only if the last outcome for that topic
in the processed order is incorrect. -/
theorem C3_weak_membership_last (m : List (String × Int)) (w : List String)
    (os : List Outcome) (t : String) (h : ∃ o ∈ os, o.topic = t) :
    t ∈ (processOutcomes m w os).2 ↔ lastOutcome os t = some false := by
  obtain ⟨b, hb⟩ := Option.isSome_iff_exists.mp ((lastOutcome_isSome os t).mp h)
  rw [processOutcomes_last os m w t b hb, hb]
  cases b <;> simp

/-- Witness for C3 at a batch holding one incorrect outcome for topic A. -/
theorem C3_weak_membership_last_witness :
    (∃ o ∈ [Outcome.mk "A" false], o.topic = "A") ∧
      ("A" ∈ (processOutcomes [] [] [Outcome.mk "A" false]).2 ↔
        lastOutcome [Outcome.mk "A" false] "A" = some false) :=
  ⟨by decide, C3_weak_membership_last [] [] [Outcome.mk "A" false] "A" (by decide)⟩

/-- C4: the batch [(Thermodynamics, true), (Thermodynamics, false),
(Algebra, false)] on the empty mastery map and empty weak-topic set
yields the mastery map Thermodynamics 0, Algebra 0 and the weak-topic
set Thermodynamics, Algebra. -/
theorem C4_example_batch :
    processOutcomes [] [] [Outcome.mk "Thermodynamics" true,
        Outcome.mk "Thermodynamics" false, Outcome.mk "Algebra" false] =
      ([("Thermodynamics", 0), ("Algebra", 0)],
        ["Thermodynamics", "Algebra"]) := by
  decide

/-- C5: submitting a quiz appends exactly one new record at the end of
the history list: the new history is the old one followed by the new
record, its length is the old length plus 1, and the old records are
unchanged as a prefix. -/
theorem C5_history_append (s : Storage) (qd : QuizData)
    (answers : List (Nat × Nat)) (resultId : String) (now : Int)
    (focusTopic selectedSubject : String) :
    loadHistory (handleSubmit s qd answers resultId now
          focusTopic selectedSubject).1 =
        loadHistory s ++
          [mkQuizResult qd answers resultId now focusTopic selectedSubject] ∧
      (loadHistory (handleSubmit s qd answers resultId now
          focusTopic selectedSubject).1).length = (loadHistory s).length + 1 ∧
      (loadHistory (handleSubmit s qd answers resultId now
          focusTopic selectedSubject).1).take (loadHistory s).length =
        loadHistory s := by
  have h1 : loadHistory (handleSubmit s qd answers resultId now
      focusTopic selectedSubject).1 =
      loadHistory s ++
        [mkQuizResult qd answers resultId now focusTopic selectedSubject] := rfl
  refine ⟨h1, ?_, ?_⟩
  · rw [h1]
    simp
  · rw [h1]
    simp

/-- C6: the mastery update is not idempotent: there is a state and a
non-empty outcome sequence whose double application yields a mastery map
different from a single application. -/
theorem C6_not_idempotent :
    ∃ (m : List (String × Int)) (w : List String) (os : List Outcome),
      os ≠ [] ∧
        (processOutcomes (processOutcomes m w os).1
            (processOutcomes m w os).2 os).1 ≠
          (processOutcomes m w os).1 :=
  ⟨[], [], [Outcome.mk "A" true], by decide, by decide⟩

/-- C7: clearing the history empties the loaded history list and leaves
the persisted mastery map and weak-topic set exactly unchanged. -/
theorem C7_clearHistory_frame (s : Storage) :
    loadHistory (clearHistory s) = [] ∧
      (clearHistory s).topicMastery = s.topicMastery ∧
      (clearHistory s).weakTopics = s.weakTopics :=
  ⟨rfl, rfl, rfl⟩

/-- C8: when a persisted value is absent at load time, the update behaves
exactly as if that structure were empty, and each load of a fully absent
store yields the empty structure. -/
theorem C8_missing_values_default (s : Storage) (qd : QuizData)
    (answers : List (Nat × Nat)) (resultId : String) (now : Int)
    (focusTopic selectedSubject : String) :
    handleSubmit { s with topicMastery := none } qd answers resultId now
        focusTopic selectedSubject =
      handleSubmit { s with topicMastery := some [] } qd answers resultId now
        focusTopic selectedSubject ∧
      handleSubmit { s with weakTopics := none } qd answers resultId now
          focusTopic selectedSubject =
        handleSubmit { s with weakTopics := some [] } qd answers resultId now
          focusTopic selectedSubject ∧
      handleSubmit { s with quizHistory := none } qd answers resultId now
          focusTopic selectedSubject =
        handleSubmit { s with quizHistory := some [] } qd answers resultId now
          focusTopic selectedSubject ∧
      loadMastery ⟨none, none, none⟩ = [] ∧
      loadWeakTopics ⟨none, none, none⟩ = [] ∧
      loadHistory ⟨none, none, none⟩ = [] :=
  ⟨rfl, rfl, rfl, rfl, rfl, rfl⟩

/-- C9: a question whose id has no selected answer counts as incorrect:
its outcome flag is false, it adds nothing to the score, its topic
counter is decremented with floor 0, and its topic joins the weak-topic
set. -/
theorem C9_unanswered_incorrect (answers : List (Nat × Nat))
    (q : QuizQuestion) (qs : List QuizQuestion) (m : List (String × Int))
    (w : List String) (h : lookupKey answers q.id = none) :
    (answerOutcome answers q).isCorrect = false ∧
      correctCount answers (q :: qs) = correctCount answers qs ∧
      masteryGet (applyOutcome (m, w) (answerOutcome answers q)).1 q.topic =
        max 0 (masteryGet m q.topic - 1) ∧
      q.topic ∈ (applyOutcome (m, w) (answerOutcome answers q)).2 := by
  have hfalse : (answerOutcome answers q).isCorrect = false := by
    simp [answerOutcome, h]
  refine ⟨hfalse, ?_, ?_, ?_⟩
  · simp [correctCount, List.filter_cons, hfalse]
  · have h1 := applyOutcome_mastery_self m w (answerOutcome answers q)
    rw [hfalse] at h1
    simpa [answerOutcome] using h1
  · have h1 := applyOutcome_weak_self m w (answerOutcome answers q)
    rw [hfalse] at h1
    simpa [answerOutcome] using h1

/-- Witness for C9 at an empty answers map and a concrete question. -/
theorem C9_unanswered_incorrect_witness :
    lookupKey ([] : List (Nat × Nat)) (QuizQuestion.mk 1 "" [] 0 "" "A").id =
        none ∧
      ((answerOutcome [] (QuizQuestion.mk 1 "" [] 0 "" "A")).isCorrect = false ∧
        correctCount [] [QuizQuestion.mk 1 "" [] 0 "" "A"] =
          correctCount [] [] ∧
        masteryGet (applyOutcome (([] : List (String × Int)), ([] : List String))
            (answerOutcome [] (QuizQuestion.mk 1 "" [] 0 "" "A"))).1
            (QuizQuestion.mk 1 "" [] 0 "" "A").topic =
          max 0 (masteryGet [] (QuizQuestion.mk 1 "" [] 0 "" "A").topic - 1) ∧
        (QuizQuestion.mk 1 "" [] 0 "" "A").topic ∈
          (applyOutcome ([], [])
            (answerOutcome [] (QuizQuestion.mk 1 "" [] 0 "" "A"))).2) :=
  ⟨by decide, C9_unanswered_incorrect [] (QuizQuestion.mk 1 "" [] 0 "" "A")
    [] [] [] (by decide)⟩

/-- C10: a topic appearing in no outcome of the batch keeps its stored
mastery entry and its weak-topic membership exactly as before the
update. -/
theorem C10_untouched_topic (m : List (String × Int)) (w : List String)
    (os : List Outcome) (t : String) (h : ∀ o ∈ os, o.topic ≠ t) :
    lookupKey (processOutcomes m w os).1 t = lookupKey m t ∧
      (t ∈ (processOutcomes m w os).2 ↔ t ∈ w) :=
  processOutcomes_frame os m w t h

/-- Witness for C10: topic B is untouched by a batch about topic A. -/
theorem C10_untouched_topic_witness :
    (∀ o ∈ [Outcome.mk "A" true], o.topic ≠ "B") ∧
      (lookupKey (processOutcomes [(("B" : String), (3 : Int))] ["B"]
            [Outcome.mk "A" true]).1 "B" = lookupKey [("B", 3)] "B" ∧
        ("B" ∈ (processOutcomes [("B", 3)] ["B"] [Outcome.mk "A" true]).2 ↔
          "B" ∈ ["B"])) :=
  ⟨by decide, C10_untouched_topic [("B", 3)] ["B"] [Outcome.mk "A" true] "B"
    (by decide)⟩

end StuddyBuddy
